import Mathlib

/-!
Shallow embedding of `src/converter/onnx_batch_size_converter.py`.

The source exposes one operation, `update_inputs_outputs_dims(model,
input_dims, output_dims)`, which rewrites the per-axis dimension
descriptors of the model graph's input and output tensors in place,
then runs the external structural checker `onnx.checker.check_model`
and returns the mutated model.

Modelling choices:
* A protobuf `TensorShapeProto.Dimension` is a oneof of `dim_value`
  (int64) and `dim_param` (string); it can also be unset.  `Dim` below
  mirrors this: setting one field clears the other.
* Python dynamic typing of the supplied dimension values is mirrored
  by `PyDim`: an `int`, a `bool` (a subclass of `int` in Python, with
  `True == 1` and `False == 0`, so `isinstance(dim, int)` holds for
  it), a `str`, or anything else.
* In-place mutation is rendered as explicit state passing: each
  function returns the (possibly partially) mutated structure together
  with an optional error, so the state at the moment an exception is
  raised is observable.
* The external checker is a parameter `check_model : ModelProto → Bool`;
  a `false` result stands for `onnx.checker.check_model` raising.
* The Python `set` of existing dim_params is a `List String` used only
  through membership, and the Python `dict` arguments are association
  lists looked up by key.
-/

namespace OnnxConverter

/-- One axis of a tensor shape: protobuf oneof `dim_value` / `dim_param`,
or unset. -/
inductive Dim where
  | value (v : Int)
  | param (s : String)
  | unset
deriving DecidableEq

/-- protobuf `HasField("dim_value")`. -/
def Dim.hasDimValue : Dim → Bool
  | .value _ => true
  | _ => false

/-- protobuf field read `dim_value` (default 0 when the field is unset). -/
def Dim.dimValue : Dim → Int
  | .value v => v
  | _ => 0

/-- protobuf `HasField("dim_param")`. -/
def Dim.hasDimParam : Dim → Bool
  | .param _ => true
  | _ => false

/-- protobuf field read `dim_param` (default "" when the field is unset). -/
def Dim.dimParam : Dim → String
  | .param s => s
  | _ => ""

/-- A Python value passed as a target dimension: `int`, `bool`
(a subclass of `int`), `str`, or some other type. -/
inductive PyDim where
  | int (n : Int)
  | bool (b : Bool)
  | str (s : String)
  | other
deriving DecidableEq

/-- Python `isinstance(dim, int)`; true for `bool` as well, since
`bool` is a subclass of `int`. -/
def PyDim.isInstInt : PyDim → Bool
  | .int _ => true
  | .bool _ => true
  | _ => false

/-- The integer value of a `PyDim` used as an int (`True == 1`,
`False == 0`). -/
def PyDim.asInt : PyDim → Int
  | .int n => n
  | .bool b => if b then 1 else 0
  | _ => 0

/-- Python `isinstance(dim, str)`. -/
def PyDim.isInstStr : PyDim → Bool
  | .str _ => true
  | _ => false

/-- The string value of a `PyDim` used as a str. -/
def PyDim.asStr : PyDim → String
  | .str s => s
  | _ => ""

/-- The failure conditions of `update_inputs_outputs_dims`: `KeyError`
from the dict lookup, `IndexError` from `shape.dim[j]`, the two
explicit `ValueError`s, the invalid-type `ValueError`, and a failure
of `onnx.checker.check_model`. -/
inductive RewriteError where
  | keyMissing (name : String)
  | indexOutOfRange (name : String) (j : Nat)
  | contradiction (name : String) (j : Nat) (requested existing : Int)
  | nameCollision (name : String) (j : Nat)
  | invalidType
  | checkFailed
deriving DecidableEq

/-- `ValueInfoProto`: a named tensor with its shape
(`info.type.tensor_type.shape.dim`). -/
structure ValueInfoProto where
  name : String
  dims : List Dim
deriving DecidableEq

/-- `GraphProto`: the fields touched or scanned by the converter
(`input`, `output`, `value_info`) plus opaque stand-ins for the rest
(`node`, `initializer`). -/
structure GraphProto where
  input : List ValueInfoProto
  output : List ValueInfoProto
  value_info : List ValueInfoProto
  node : List String
  initializer : List String
deriving DecidableEq

/-- `ModelProto`: the graph plus an opaque stand-in for the model-level
metadata fields. -/
structure ModelProto where
  graph : GraphProto
  ir_version : Int
deriving DecidableEq

/-- The `dim_param` names of one tensor, in order: those axes `dim`
with `dim.HasField("dim_param")`. -/
def dimParamsOf (info : ValueInfoProto) : List String :=
  info.dims.filterMap fun d =>
    match d with
    | .param s => some s
    | _ => none

/-- `init_dim_param_set`: extend the accumulated set with every
`dim_param` appearing in the given value infos.  The Python `set` is
modelled as a list used only through membership. -/
def init_dim_param_set (dim_param_set : List String)
    (value_infos : List ValueInfoProto) : List String :=
  match value_infos with
  | [] => dim_param_set
  | info :: rest => init_dim_param_set (dim_param_set ++ dimParamsOf info) rest

/-- The dim_param set built at the start of a call: inputs, then
outputs, then value_info. -/
def collect_dim_params (model : ModelProto) : List String :=
  init_dim_param_set
    (init_dim_param_set (init_dim_param_set [] model.graph.input)
      model.graph.output)
    model.graph.value_info

/-- `generated_dim_param = name + "_" + str(j)`. -/
def generated_dim_param (name : String) (j : Nat) : String :=
  name ++ "_" ++ toString j

/-- Decimal value of a digit character list, used to invert `Nat.toDigits`. -/
def evalDigits (l : List Char) : Nat :=
  l.foldl (fun a c => 10 * a + (c.toNat - 48)) 0

/-- `update_dim(tensor, dim, j, name)` acting on the tensor's dim list:
returns the updated list, or the error raised.  `dims[j]?` is the
protobuf `shape.dim[j]` access (raising `IndexError` when out of
range); a failure leaves the list untouched, matching the source where
each `raise` happens before any assignment to `dim_proto`. -/
def update_dim (dims : List Dim) (dim : PyDim) (j : Nat) (name : String)
    (dim_param_set : List String) : Except RewriteError (List Dim) :=
  match dims[j]? with
  | none => .error (.indexOutOfRange name j)
  | some dim_proto =>
    if dim.isInstInt then
      if 0 ≤ dim.asInt then
        if dim_proto.hasDimValue = true ∧ dim_proto.dimValue ≠ dim.asInt then
          .error (.contradiction name j dim.asInt dim_proto.dimValue)
        else
          .ok (dims.set j (.value dim.asInt))
      else
        if generated_dim_param name j ∈ dim_param_set then
          .error (.nameCollision name j)
        else
          .ok (dims.set j (.param (generated_dim_param name j)))
    else if dim.isInstStr then
      .ok (dims.set j (.param dim.asStr))
    else
      .error .invalidType

/-- The inner loop `for j, dim in enumerate(dim_arr): update_dim(...)`,
started at axis index `j`: returns the dim list as mutated so far and
the first error raised, if any. -/
def update_dims_loop (dims : List Dim) (specs : List PyDim) (j : Nat)
    (name : String) (dim_param_set : List String) :
    List Dim × Option RewriteError :=
  match specs with
  | [] => (dims, none)
  | dim :: rest =>
    match update_dim dims dim j name dim_param_set with
    | .error e => (dims, some e)
    | .ok dims' => update_dims_loop dims' rest (j + 1) name dim_param_set

/-- Python dict lookup `m[name]` on the association-list rendering of
the dimension maps; `none` is a `KeyError`. -/
def lookupDims (m : List (String × List PyDim)) (name : String) :
    Option (List PyDim) :=
  match m with
  | [] => none
  | (k, v) :: rest => if k = name then some v else lookupDims rest name

/-- One of the two outer loops (`for input in model.graph.input` or
`for output in model.graph.output`): process the tensors in order,
stopping at the first error and returning the list as mutated so
far. -/
def update_tensors (tensors : List ValueInfoProto)
    (dims_map : List (String × List PyDim)) (dim_param_set : List String) :
    List ValueInfoProto × Option RewriteError :=
  match tensors with
  | [] => ([], none)
  | t :: rest =>
    match lookupDims dims_map t.name with
    | none => (t :: rest, some (.keyMissing t.name))
    | some specs =>
      match update_dims_loop t.dims specs 0 t.name dim_param_set with
      | (dims', some e) => ({ t with dims := dims' } :: rest, some e)
      | (dims', none) =>
        let (rest', err) := update_tensors rest dims_map dim_param_set
        ({ t with dims := dims' } :: rest', err)

/-- `update_inputs_outputs_dims(model, input_dims, output_dims)`:
collect existing dim_params, update every input, then every output,
then run the external checker.  The first component of the result is
the model state when the call returns or raises (mutation is in
place); the second is the error raised, if any. -/
def update_inputs_outputs_dims (model : ModelProto)
    (input_dims output_dims : List (String × List PyDim))
    (check_model : ModelProto → Bool) : ModelProto × Option RewriteError :=
  let dim_param_set := collect_dim_params model
  match update_tensors model.graph.input input_dims dim_param_set with
  | (inputs', some e) =>
    ({ model with graph := { model.graph with input := inputs' } }, some e)
  | (inputs', none) =>
    let model1 : ModelProto :=
      { model with graph := { model.graph with input := inputs' } }
    match update_tensors model1.graph.output output_dims dim_param_set with
    | (outputs', some e) =>
      ({ model1 with graph := { model1.graph with output := outputs' } },
        some e)
    | (outputs', none) =>
      let model2 : ModelProto :=
        { model1 with graph := { model1.graph with output := outputs' } }
      if check_model model2 then (model2, none)
      else (model2, some .checkFailed)

/-- Concrete model of the documented end-to-end scenario: input
`"input_1"` of shape `("b", 3, "w", "h")` and output `"output"` of
shape `("b", "d", 5)`. -/
def exampleModel : ModelProto :=
  { graph :=
      { input := [{ name := "input_1",
                    dims := [.param "b", .value 3, .param "w", .param "h"] }]
        output := [{ name := "output",
                     dims := [.param "b", .param "d", .value 5] }]
        value_info := []
        node := ["node0"]
        initializer := [] }
    ir_version := 7 }

def exampleExpected : ModelProto :=
  { graph :=
      { input := [{ name := "input_1",
                    dims := [.param "batch", .value 3, .param "input_1_2",
                             .param "input_1_3"] }]
        output := [{ name := "output",
                     dims := [.param "batch", .param "output_1", .value 5] }]
        value_info := []
        node := ["node0"]
        initializer := [] }
    ir_version := 7 }

def exampleInputDims : List (String × List PyDim) :=
  [("input_1", [.str "batch", .int 3, .int (-1), .int (-1)])]

def exampleOutputDims : List (String × List PyDim) :=
  [("output", [.str "batch", .int (-1), .int 5])]

/-!
Helper lemmas about `Nat.repr`, needed because `generated_dim_param`
embeds a decimal axis index: decimal digit strings contain no
underscore and `Nat.repr` is injective.
-/

lemma toDigitsCore_succ (b f n : Nat) (ds : List Char) :
    Nat.toDigitsCore b (f + 1) n ds =
      if n / b = 0 then (n % b).digitChar :: ds
      else Nat.toDigitsCore b f (n / b) ((n % b).digitChar :: ds) := by
  simp [Nat.toDigitsCore]

lemma toDigitsCore_shift (b : Nat) :
    ∀ (fuel n : Nat) (acc : List Char),
      Nat.toDigitsCore b fuel n acc = Nat.toDigitsCore b fuel n [] ++ acc := by
  intro fuel
  induction fuel with
  | zero => intro n acc; simp [Nat.toDigitsCore]
  | succ f ih =>
    intro n acc
    rw [toDigitsCore_succ, toDigitsCore_succ]
    by_cases h : n / b = 0
    · simp [h]
    · rw [if_neg h, if_neg h, ih (n / b) ((n % b).digitChar :: acc),
        ih (n / b) [(n % b).digitChar]]
      simp

lemma toDigitsCore_fuel (b : Nat) (hb : 2 ≤ b) :
    ∀ (f1 f2 n : Nat) (acc : List Char), n < f1 → n < f2 →
      Nat.toDigitsCore b f1 n acc = Nat.toDigitsCore b f2 n acc := by
  intro f1
  induction f1 with
  | zero => intro f2 n acc h1; omega
  | succ f ih =>
    intro f2 n acc h1 h2
    cases f2 with
    | zero => omega
    | succ g =>
      rw [toDigitsCore_succ, toDigitsCore_succ]
      by_cases h : n / b = 0
      · simp [h]
      · rw [if_neg h, if_neg h]
        have hn : 0 < n := by
          rcases Nat.eq_zero_or_pos n with h0 | h0
          · subst h0; simp at h
          · exact h0
        have hlt : n / b < n := Nat.div_lt_self hn (by omega)
        exact ih g (n / b) ((n % b).digitChar :: acc) (by omega) (by omega)

lemma toDigits_eq_of_lt (n : Nat) (h : n < 10) :
    Nat.toDigits 10 n = [Nat.digitChar n] := by
  show Nat.toDigitsCore 10 (n + 1) n [] = _
  rw [toDigitsCore_succ, if_pos (Nat.div_eq_of_lt h), Nat.mod_eq_of_lt h]

lemma toDigits_eq_of_ge (n : Nat) (h : 10 ≤ n) :
    Nat.toDigits 10 n =
      Nat.toDigits 10 (n / 10) ++ [Nat.digitChar (n % 10)] := by
  show Nat.toDigitsCore 10 (n + 1) n [] = _
  have h0 : n / 10 ≠ 0 := by
    intro hc
    have := Nat.div_eq_of_lt (show n < 10 by omega)
    omega
  rw [toDigitsCore_succ, if_neg h0, toDigitsCore_shift,
    toDigitsCore_fuel 10 (by omega) n (n / 10 + 1) (n / 10) []
      (Nat.lt_of_lt_of_le (Nat.div_lt_self (by omega) (by omega)) (by omega))
      (Nat.lt_succ_self _)]
  rfl

lemma evalDigits_append_singleton (l : List Char) (c : Char) :
    evalDigits (l ++ [c]) = 10 * evalDigits l + (c.toNat - 48) := by
  simp [evalDigits, List.foldl_append]

lemma digitChar_val (d : Nat) (h : d < 10) :
    (Nat.digitChar d).toNat - 48 = d := by
  interval_cases d <;> decide

lemma digitChar_ne_underscore (d : Nat) (h : d < 10) :
    Nat.digitChar d ≠ '_' := by
  interval_cases d <;> decide

lemma evalDigits_toDigits (n : Nat) : evalDigits (Nat.toDigits 10 n) = n := by
  induction n using Nat.strong_induction_on with
  | _ n ih =>
    by_cases h : n < 10
    · rw [toDigits_eq_of_lt n h]
      show 10 * 0 + ((Nat.digitChar n).toNat - 48) = n
      rw [digitChar_val n h]
      omega
    · push_neg at h
      rw [toDigits_eq_of_ge n h, evalDigits_append_singleton,
        ih (n / 10) (Nat.div_lt_self (by omega) (by omega)),
        digitChar_val (n % 10) (Nat.mod_lt n (by omega))]
      omega

lemma natRepr_injective (m n : Nat) (h : Nat.repr m = Nat.repr n) : m = n := by
  have hd : Nat.toDigits 10 m = Nat.toDigits 10 n := by
    have := congrArg String.data h
    simpa [Nat.repr, List.asString] using this
  have := congrArg evalDigits hd
  rwa [evalDigits_toDigits, evalDigits_toDigits] at this

lemma underscore_not_mem_toDigits (n : Nat) : '_' ∉ Nat.toDigits 10 n := by
  induction n using Nat.strong_induction_on with
  | _ n ih =>
    by_cases h : n < 10
    · rw [toDigits_eq_of_lt n h]
      simp
      exact fun hc => digitChar_ne_underscore n h hc.symm
    · push_neg at h
      rw [toDigits_eq_of_ge n h]
      intro hc
      rcases List.mem_append.mp hc with hc | hc
      · exact ih (n / 10) (Nat.div_lt_self (by omega) (by omega)) hc
      · simp at hc
        exact digitChar_ne_underscore (n % 10) (Nat.mod_lt n (by omega)) hc.symm

lemma underscore_not_mem_repr (n : Nat) : '_' ∉ (Nat.repr n).data := by
  show '_' ∉ Nat.toDigits 10 n
  exact underscore_not_mem_toDigits n

lemma append_sep_inj (c : Char) :
    ∀ (a1 a2 b1 b2 : List Char), c ∉ b1 → c ∉ b2 →
      a1 ++ c :: b1 = a2 ++ c :: b2 → a1 = a2 ∧ b1 = b2 := by
  intro a1
  induction a1 with
  | nil =>
    intro a2 b1 b2 hb1 hb2 heq
    cases a2 with
    | nil => simpa using heq
    | cons x t =>
      have heq' : c = x ∧ b1 = t ++ c :: b2 := by simpa using heq
      have hc : c ∈ b1 := by
        rw [heq'.2]
        exact List.mem_append_right t (List.mem_cons_self c b2)
      exact absurd hc hb1
  | cons x t ih =>
    intro a2 b1 b2 hb1 hb2 heq
    cases a2 with
    | nil =>
      have heq' : x = c ∧ t ++ c :: b1 = b2 := by simpa using heq
      have hc : c ∈ b2 := by
        rw [← heq'.2]
        exact List.mem_append_right t (List.mem_cons_self c b1)
      exact absurd hc hb2
    | cons y t2 =>
      have heq' : x = y ∧ t ++ c :: b1 = t2 ++ c :: b2 := by simpa using heq
      obtain ⟨h1, h2⟩ := ih t2 b1 b2 hb1 hb2 heq'.2
      exact ⟨by rw [heq'.1, h1], h2⟩

lemma generated_dim_param_data (name : String) (j : Nat) :
    (generated_dim_param name j).data =
      name.data ++ '_' :: (Nat.repr j).data := by
  show (name ++ "_" ++ toString j).data = _
  rw [String.data_append, String.data_append, List.append_assoc]
  rfl

lemma generated_inj (n1 n2 : String) (j1 j2 : Nat)
    (h : generated_dim_param n1 j1 = generated_dim_param n2 j2) :
    n1 = n2 ∧ j1 = j2 := by
  have hd := congrArg String.data h
  rw [generated_dim_param_data, generated_dim_param_data] at hd
  obtain ⟨ha, hb⟩ := append_sep_inj '_' n1.data n2.data (Nat.repr j1).data
    (Nat.repr j2).data (underscore_not_mem_repr j1) (underscore_not_mem_repr j2)
    hd
  exact ⟨String.ext ha, natRepr_injective j1 j2 (String.ext hb)⟩


lemma list_set_of_getElem {α : Type} :
    ∀ (l : List α) (i : Nat) (a : α), l[i]? = some a → l.set i a = l := by
  intro l
  induction l with
  | nil => intro i a h; simp at h
  | cons x t ih =>
    intro i a h
    cases i with
    | zero => simp_all
    | succ k =>
      simp only [List.getElem?_cons_succ] at h
      simp [List.set, ih k a h]

lemma update_dim_ok_shape (dims : List Dim) (dim : PyDim) (j : Nat)
    (name : String) (dps : List String) (dims' : List Dim)
    (h : update_dim dims dim j name dps = .ok dims') :
    ∃ x, dims' = dims.set j x := by
  unfold update_dim at h
  cases hd : dims[j]? with
  | none => rw [hd] at h; simp at h
  | some d =>
    rw [hd] at h
    simp only at h
    split_ifs at h <;> simp only [Except.ok.injEq] at h <;>
      exact ⟨_, h.symm⟩

lemma update_dim_not_index_error (dims : List Dim) (dim : PyDim) (j : Nat)
    (name : String) (dps : List String) (d : Dim) (hd : dims[j]? = some d) :
    ∀ (nm : String) (k : Nat),
      update_dim dims dim j name dps ≠ .error (.indexOutOfRange nm k) := by
  intro nm k h
  unfold update_dim at h
  rw [hd] at h
  simp only at h
  split_ifs at h <;> simp at h

lemma update_dim_length (dims : List Dim) (dim : PyDim) (j : Nat)
    (name : String) (dps : List String) (dims' : List Dim)
    (h : update_dim dims dim j name dps = .ok dims') :
    dims'.length = dims.length := by
  obtain ⟨x, hx⟩ := update_dim_ok_shape dims dim j name dps dims' h
  simp [hx]

lemma update_dims_loop_length (specs : List PyDim) :
    ∀ (dims : List Dim) (j : Nat) (name : String) (dps : List String),
      ((update_dims_loop dims specs j name dps).fst).length = dims.length := by
  induction specs with
  | nil => intro dims j name dps; rfl
  | cons dim rest ih =>
    intro dims j name dps
    cases hu : update_dim dims dim j name dps with
    | error e => simp [update_dims_loop, hu]
    | ok dims' =>
      simp only [update_dims_loop, hu]
      rw [ih dims' (j+1) name dps, update_dim_length dims dim j name dps dims' hu]

lemma update_dims_loop_frame (specs : List PyDim) :
    ∀ (dims : List Dim) (j : Nat) (name : String) (dps : List String) (i : Nat),
      i < j ∨ j + specs.length ≤ i →
      ((update_dims_loop dims specs j name dps).fst)[i]? = dims[i]? := by
  induction specs with
  | nil => intro dims j name dps i hi; rfl
  | cons dim rest ih =>
    intro dims j name dps i hi
    cases hu : update_dim dims dim j name dps with
    | error e => simp [update_dims_loop, hu]
    | ok dims' =>
      simp only [update_dims_loop, hu]
      obtain ⟨x, hx⟩ := update_dim_ok_shape dims dim j name dps dims' hu
      have hij : i ≠ j := by
        rcases hi with hi | hi
        · omega
        · simp only [List.length_cons] at hi; omega
      have h1 : (update_dims_loop dims' rest (j+1) name dps).fst[i]? = dims'[i]? := by
        apply ih
        rcases hi with hi | hi
        · left; omega
        · right; simp only [List.length_cons] at hi; omega
      rw [h1, hx, List.getElem?_set_ne (fun hji => hij hji.symm)]

lemma update_dims_loop_overrun (specs : List PyDim) :
    ∀ (dims : List Dim) (j : Nat) (name : String) (dps : List String),
      dims.length < j + specs.length → specs ≠ [] →
      (update_dims_loop dims specs j name dps).snd ≠ none := by
  induction specs with
  | nil => intro dims j name dps h1 h2; exact absurd rfl h2
  | cons dim rest ih =>
    intro dims j name dps h1 h2
    cases hu : update_dim dims dim j name dps with
    | error e => simp [update_dims_loop, hu]
    | ok dims' =>
      simp only [update_dims_loop, hu]
      cases rest with
      | nil =>
        exfalso
        have hj : dims.length ≤ j := by simp at h1; omega
        have hnone : dims[j]? = none := List.getElem?_eq_none hj
        unfold update_dim at hu
        rw [hnone] at hu
        simp at hu
      | cons r rs =>
        apply ih dims' (j+1) name dps
        · rw [update_dim_length dims dim j name dps dims' hu]
          simp only [List.length_cons] at h1 ⊢
          omega
        · simp

lemma update_dims_loop_no_index_error (specs : List PyDim) :
    ∀ (dims : List Dim) (j : Nat) (name : String) (dps : List String),
      j + specs.length ≤ dims.length →
      ∀ (nm : String) (k : Nat),
        (update_dims_loop dims specs j name dps).snd ≠
          some (.indexOutOfRange nm k) := by
  induction specs with
  | nil => intro dims j name dps h nm k; simp [update_dims_loop]
  | cons dim rest ih =>
    intro dims j name dps h nm k
    have hj : j < dims.length := by simp only [List.length_cons] at h; omega
    have hd : dims[j]? = some dims[j] := List.getElem?_eq_getElem hj
    cases hu : update_dim dims dim j name dps with
    | error e =>
      simp only [update_dims_loop, hu]
      intro hc
      simp only [Option.some.injEq] at hc
      exact update_dim_not_index_error dims dim j name dps dims[j] hd nm k
        (hc ▸ hu)
    | ok dims' =>
      simp only [update_dims_loop, hu]
      apply ih dims' (j+1) name dps
      rw [update_dim_length dims dim j name dps dims' hu]
      simp only [List.length_cons] at h
      omega


lemma update_tensors_names (dims_map : List (String × List PyDim))
    (dps : List String) :
    ∀ (ts : List ValueInfoProto),
      ((update_tensors ts dims_map dps).fst).map ValueInfoProto.name =
        ts.map ValueInfoProto.name := by
  intro ts
  induction ts with
  | nil => rfl
  | cons t rest ih =>
    cases hl : lookupDims dims_map t.name with
    | none => simp [update_tensors, hl]
    | some specs =>
      rcases hu : update_dims_loop t.dims specs 0 t.name dps with ⟨dims', err⟩
      cases err with
      | none =>
        rcases hr : update_tensors rest dims_map dps with ⟨rest', err2⟩
        simp only [update_tensors, hl, hu, hr, List.map_cons]
        have := ih
        rw [hr] at this
        simp only [List.map_cons] at this ⊢
        simp [this]
      | some e => simp [update_tensors, hl, hu]

lemma update_tensors_dims_lengths (dims_map : List (String × List PyDim))
    (dps : List String) :
    ∀ (ts : List ValueInfoProto),
      ((update_tensors ts dims_map dps).fst).map (fun t => t.dims.length) =
        ts.map (fun t => t.dims.length) := by
  intro ts
  induction ts with
  | nil => rfl
  | cons t rest ih =>
    cases hl : lookupDims dims_map t.name with
    | none => simp [update_tensors, hl]
    | some specs =>
      rcases hu : update_dims_loop t.dims specs 0 t.name dps with ⟨dims', err⟩
      have hlen : dims'.length = t.dims.length := by
        have := update_dims_loop_length specs t.dims 0 t.name dps
        rw [hu] at this
        exact this
      cases err with
      | none =>
        rcases hr : update_tensors rest dims_map dps with ⟨rest', err2⟩
        simp only [update_tensors, hl, hu, hr, List.map_cons]
        have := ih
        rw [hr] at this
        simp only [List.map_cons] at this ⊢
        simp [hlen, this]
      | some e => simp [update_tensors, hl, hu, hlen]

lemma update_tensors_missing (dims_map : List (String × List PyDim))
    (dps : List String) :
    ∀ (ts : List ValueInfoProto) (k : Nat) (hk : k < ts.length),
      lookupDims dims_map (ts.get ⟨k, hk⟩).name = none →
      (update_tensors ts dims_map dps).snd ≠ none ∧
      ((update_tensors ts dims_map dps).fst)[k]? = some (ts.get ⟨k, hk⟩) := by
  intro ts
  induction ts with
  | nil => intro k hk; simp at hk
  | cons t rest ih =>
    intro k hk hmiss
    cases k with
    | zero =>
      simp only [List.get] at hmiss
      simp [update_tensors, hmiss]
    | succ k' =>
      simp only [List.get] at hmiss
      have hk' : k' < rest.length := by simp at hk; omega
      cases hl : lookupDims dims_map t.name with
      | none => simp [update_tensors, hl, List.getElem?_cons_succ]
      | some specs =>
        rcases hu : update_dims_loop t.dims specs 0 t.name dps with ⟨dims', err⟩
        cases err with
        | some e => simp [update_tensors, hl, hu, List.getElem?_cons_succ]
        | none =>
          rcases hr : update_tensors rest dims_map dps with ⟨rest', err2⟩
          obtain ⟨hs, hg⟩ := ih k' hk' hmiss
          rw [hr] at hs hg
          simp only [update_tensors, hl, hu, hr]
          exact ⟨hs, by simpa using hg⟩


lemma rewrite_fst_form (model : ModelProto)
    (input_dims output_dims : List (String × List PyDim))
    (check_model : ModelProto → Bool) :
    ∃ (ins outs : List ValueInfoProto),
      (update_inputs_outputs_dims model input_dims output_dims
          check_model).fst =
        { model with graph :=
            { model.graph with input := ins, output := outs } } ∧
      ins.map ValueInfoProto.name =
        model.graph.input.map ValueInfoProto.name ∧
      outs.map ValueInfoProto.name =
        model.graph.output.map ValueInfoProto.name ∧
      ins.map (fun t => t.dims.length) =
        model.graph.input.map (fun t => t.dims.length) ∧
      outs.map (fun t => t.dims.length) =
        model.graph.output.map (fun t => t.dims.length) := by
  rcases h1 : update_tensors model.graph.input input_dims
      (collect_dim_params model) with ⟨ins, e1⟩
  have hn1 : ins.map ValueInfoProto.name =
      model.graph.input.map ValueInfoProto.name := by
    have := update_tensors_names input_dims (collect_dim_params model)
      model.graph.input
    rw [h1] at this
    exact this
  have hl1 : ins.map (fun t => t.dims.length) =
      model.graph.input.map (fun t => t.dims.length) := by
    have := update_tensors_dims_lengths input_dims (collect_dim_params model)
      model.graph.input
    rw [h1] at this
    exact this
  cases e1 with
  | some e =>
    refine ⟨ins, model.graph.output, ?_, hn1, rfl, hl1, rfl⟩
    simp [update_inputs_outputs_dims, h1]
  | none =>
    rcases h2 : update_tensors model.graph.output output_dims
        (collect_dim_params model) with ⟨outs, e2⟩
    have hn2 : outs.map ValueInfoProto.name =
        model.graph.output.map ValueInfoProto.name := by
      have := update_tensors_names output_dims (collect_dim_params model)
        model.graph.output
      rw [h2] at this
      exact this
    have hl2 : outs.map (fun t => t.dims.length) =
        model.graph.output.map (fun t => t.dims.length) := by
      have := update_tensors_dims_lengths output_dims
        (collect_dim_params model) model.graph.output
      rw [h2] at this
      exact this
    refine ⟨ins, outs, ?_, hn1, hn2, hl1, hl2⟩
    cases e2 with
    | some e => simp [update_inputs_outputs_dims, h1, h2]
    | none =>
      by_cases hc : check_model { model with graph :=
          { model.graph with input := ins, output := outs } } = true
      · simp [update_inputs_outputs_dims, h1, h2, hc]
      · simp [update_inputs_outputs_dims, h1, h2, hc]


/-- C1: for a non-negative integer target `n` on axis `j`: a currently
fixed value different from `n` raises the contradiction error; otherwise
the axis is set to `Fixed n`; re-stating the same fixed value succeeds
and leaves the dim list unchanged. -/
theorem update_dim_fixed_spec (dims : List Dim) (n : Int) (j : Nat)
    (name : String) (dps : List String) (d : Dim)
    (hd : dims[j]? = some d) (hn : 0 ≤ n) :
    (∀ v : Int, d = Dim.value v → v ≠ n →
      update_dim dims (.int n) j name dps =
        .error (.contradiction name j n v)) ∧
    ((∀ v : Int, d = Dim.value v → v = n) →
      update_dim dims (.int n) j name dps = .ok (dims.set j (.value n))) ∧
    (d = Dim.value n → update_dim dims (.int n) j name dps = .ok dims) := by
  have key : (∀ v : Int, d = Dim.value v → v = n) →
      update_dim dims (.int n) j name dps = .ok (dims.set j (.value n)) := by
    intro hno
    unfold update_dim
    rw [hd]
    have hcond : ¬(d.hasDimValue = true ∧ d.dimValue ≠ n) := by
      rintro ⟨hh, hne⟩
      cases d with
      | value v => exact hne (by simpa [Dim.dimValue] using hno v rfl)
      | param s => simp [Dim.hasDimValue] at hh
      | unset => simp [Dim.hasDimValue] at hh
    simp [PyDim.isInstInt, PyDim.asInt, hn, hcond]
  refine ⟨?_, key, ?_⟩
  · intro v hv hne
    subst hv
    unfold update_dim
    rw [hd]
    simp [PyDim.isInstInt, PyDim.asInt, hn, Dim.hasDimValue, Dim.dimValue, hne]
  · intro hdv
    rw [key (fun v hv => by rw [hdv] at hv; exact (Dim.value.inj hv).symm)]
    rw [list_set_of_getElem dims j (Dim.value n) (hdv ▸ hd)]

theorem update_dim_fixed_spec_witness :
    update_dim [Dim.value 3] (.int 3) 0 "x" [] = .ok [Dim.value 3] :=
  (update_dim_fixed_spec [Dim.value 3] 3 0 "x" [] (Dim.value 3) rfl
    (by decide)).2.2 rfl

/-- C2: for a negative integer target on axis `j` of tensor `name`, the
candidate `"{name}_{j}"` is built; membership in the pre-collected set
raises the name-collision error, otherwise the axis becomes
`Symbolic(candidate)`; the loop then continues on later axes with the
same, un-extended set. -/
theorem update_dim_negative_spec (dims : List Dim) (n : Int) (j : Nat)
    (name : String) (dps : List String) (d : Dim)
    (hd : dims[j]? = some d) (hn : n < 0) :
    (generated_dim_param name j ∈ dps →
      update_dim dims (.int n) j name dps =
        .error (.nameCollision name j)) ∧
    (generated_dim_param name j ∉ dps →
      update_dim dims (.int n) j name dps =
        .ok (dims.set j (.param (generated_dim_param name j)))) ∧
    (∀ rest : List PyDim, generated_dim_param name j ∉ dps →
      update_dims_loop dims (.int n :: rest) j name dps =
        update_dims_loop (dims.set j (.param (generated_dim_param name j)))
          rest (j + 1) name dps) := by
  have hnle : ¬ (0 : Int) ≤ n := not_le.mpr hn
  have key : generated_dim_param name j ∉ dps →
      update_dim dims (.int n) j name dps =
        .ok (dims.set j (.param (generated_dim_param name j))) := by
    intro hmem
    unfold update_dim
    rw [hd]
    simp [PyDim.isInstInt, PyDim.asInt, hnle, hmem]
  refine ⟨?_, key, ?_⟩
  · intro hmem
    unfold update_dim
    rw [hd]
    simp [PyDim.isInstInt, PyDim.asInt, hnle, hmem]
  · intro rest hmem
    simp only [update_dims_loop, key hmem]

theorem update_dim_negative_spec_witness :
    update_dim [Dim.unset] (.int (-1)) 0 "x" ["b"] =
      .ok [Dim.param "x_0"] :=
  (update_dim_negative_spec [Dim.unset] (-1) 0 "x" ["b"] Dim.unset rfl
    (by decide)).2.1 (by decide)

/-- C3: a string target `s` unconditionally overwrites axis `j` with
`Symbolic s`, with no contradiction check and no possible failure, even
when the axis currently holds a fixed value. -/
theorem update_dim_string_spec (dims : List Dim) (s : String) (j : Nat)
    (name : String) (dps : List String) (d : Dim)
    (hd : dims[j]? = some d) :
    update_dim dims (.str s) j name dps = .ok (dims.set j (.param s)) := by
  unfold update_dim
  rw [hd]
  simp [PyDim.isInstInt, PyDim.isInstStr, PyDim.asStr]

theorem update_dim_string_spec_witness :
    update_dim [Dim.value 5] (.str "batch") 0 "x" [] =
      .ok [Dim.param "batch"] :=
  update_dim_string_spec [Dim.value 5] "batch" 0 "x" [] (Dim.value 5) rfl

/-- C4: a model input (resp. output) tensor whose name has no entry in
the corresponding dimension map makes the call fail, and that tensor is
returned unmutated; at the point the tensor is processed the failure is
exactly the lookup (KeyError) failure, raised before any of its axes are
touched. -/
theorem rewrite_missing_key_spec (model : ModelProto)
    (input_dims output_dims : List (String × List PyDim))
    (check_model : ModelProto → Bool) :
    (∀ (t : ValueInfoProto) (rest : List ValueInfoProto)
        (m : List (String × List PyDim)) (dps : List String),
      lookupDims m t.name = none →
      update_tensors (t :: rest) m dps =
        (t :: rest, some (.keyMissing t.name))) ∧
    (∀ (k : Nat) (hk : k < model.graph.input.length),
      lookupDims input_dims ((model.graph.input).get ⟨k, hk⟩).name = none →
      (update_inputs_outputs_dims model input_dims output_dims
          check_model).snd ≠ none ∧
      ((update_inputs_outputs_dims model input_dims output_dims
          check_model).fst.graph.input)[k]? =
        some ((model.graph.input).get ⟨k, hk⟩)) ∧
    (∀ (k : Nat) (hk : k < model.graph.output.length),
      lookupDims output_dims ((model.graph.output).get ⟨k, hk⟩).name = none →
      (update_inputs_outputs_dims model input_dims output_dims
          check_model).snd ≠ none ∧
      ((update_inputs_outputs_dims model input_dims output_dims
          check_model).fst.graph.output)[k]? =
        some ((model.graph.output).get ⟨k, hk⟩)) := by
  refine ⟨?_, ?_, ?_⟩
  · intro t rest m dps hmiss
    simp [update_tensors, hmiss]
  · intro k hk hmiss
    rcases h1 : update_tensors model.graph.input input_dims
        (collect_dim_params model) with ⟨ins, e1⟩
    obtain ⟨hs, hg⟩ := update_tensors_missing input_dims
      (collect_dim_params model) model.graph.input k hk hmiss
    rw [h1] at hs hg
    cases e1 with
    | none => exact absurd rfl hs
    | some e =>
      constructor
      · simp [update_inputs_outputs_dims, h1]
      · simp only [update_inputs_outputs_dims, h1]
        simpa using hg
  · intro k hk hmiss
    rcases h1 : update_tensors model.graph.input input_dims
        (collect_dim_params model) with ⟨ins, e1⟩
    cases e1 with
    | some e =>
      constructor
      · simp [update_inputs_outputs_dims, h1]
      · simp only [update_inputs_outputs_dims, h1]
        simp [List.getElem?_eq_getElem hk]
    | none =>
      rcases h2 : update_tensors model.graph.output output_dims
          (collect_dim_params model) with ⟨outs, e2⟩
      obtain ⟨hs, hg⟩ := update_tensors_missing output_dims
        (collect_dim_params model) model.graph.output k hk hmiss
      rw [h2] at hs hg
      cases e2 with
      | none => exact absurd rfl hs
      | some e =>
        constructor
        · simp [update_inputs_outputs_dims, h1, h2]
        · simp only [update_inputs_outputs_dims, h1, h2]
          simpa using hg

theorem rewrite_missing_key_spec_witness :
    (update_inputs_outputs_dims
        { graph := { input := [{ name := "x", dims := [Dim.unset] }],
                     output := [], value_info := [], node := [],
                     initializer := [] },
          ir_version := 7 }
        [] [] (fun _ => true)).snd ≠ none ∧
    ((update_inputs_outputs_dims
        { graph := { input := [{ name := "x", dims := [Dim.unset] }],
                     output := [], value_info := [], node := [],
                     initializer := [] },
          ir_version := 7 }
        [] [] (fun _ => true)).fst.graph.input)[0]? =
      some { name := "x", dims := [Dim.unset] } :=
  (rewrite_missing_key_spec
    { graph := { input := [{ name := "x", dims := [Dim.unset] }],
                 output := [], value_info := [], node := [],
                 initializer := [] },
      ir_version := 7 }
    [] [] (fun _ => true)).2.1 0 (by decide) rfl

/-- C5: the returned model is the mutated state itself: it does not
depend on the validator verdict (no rollback on validator failure), and
the mutations applied to the inputs persist in the returned model
whatever happens afterwards. -/
theorem rewrite_in_place_spec (model : ModelProto)
    (input_dims output_dims : List (String × List PyDim))
    (c1 c2 : ModelProto → Bool) :
    (update_inputs_outputs_dims model input_dims output_dims c1).fst =
      (update_inputs_outputs_dims model input_dims output_dims c2).fst ∧
    (update_inputs_outputs_dims model input_dims output_dims
        c1).fst.graph.input =
      (update_tensors model.graph.input input_dims
        (collect_dim_params model)).fst := by
  rcases h1 : update_tensors model.graph.input input_dims
      (collect_dim_params model) with ⟨ins, e1⟩
  cases e1 with
  | some e => constructor <;> simp [update_inputs_outputs_dims, h1]
  | none =>
    rcases h2 : update_tensors model.graph.output output_dims
        (collect_dim_params model) with ⟨outs, e2⟩
    cases e2 with
    | some e => constructor <;> simp [update_inputs_outputs_dims, h1, h2]
    | none =>
      constructor
      · by_cases hc1 : c1 { model with graph :=
            { model.graph with input := ins, output := outs } } = true <;>
          by_cases hc2 : c2 { model with graph :=
            { model.graph with input := ins, output := outs } } = true <;>
          simp [update_inputs_outputs_dims, h1, h2, hc1, hc2]
      · by_cases hc1 : c1 { model with graph :=
            { model.graph with input := ins, output := outs } } = true <;>
          simp [update_inputs_outputs_dims, h1, h2, hc1]

/-- C6 counterexample: a tensor with two axes supplied with a single
axis entry is processed without any failure, so a count mismatch does
not always surface as an out-of-range access. -/
theorem mismatch_silent_counterexample :
    (update_inputs_outputs_dims
        { graph := { input := [{ name := "x",
                                 dims := [Dim.value 1, Dim.value 2] }],
                     output := [], value_info := [], node := [],
                     initializer := [] },
          ir_version := 7 }
        [("x", [PyDim.int 1])] [] (fun _ => true)).snd = none ∧
    [PyDim.int 1].length ≠ [Dim.value 1, Dim.value 2].length := by
  decide

/-- C6 amended: supplying more axis entries than the tensor has axes
always makes the loop fail (the excess access is out of range);
supplying at most as many entries never produces an out-of-range
failure, and axes outside the supplied range are left unchanged (a
shorter supply is silently accepted). -/
theorem update_dims_loop_mismatch_spec (dims : List Dim)
    (specs : List PyDim) (j : Nat) (name : String) (dps : List String) :
    (dims.length < j + specs.length → specs ≠ [] →
      (update_dims_loop dims specs j name dps).snd ≠ none) ∧
    (j + specs.length ≤ dims.length → ∀ (nm : String) (k : Nat),
      (update_dims_loop dims specs j name dps).snd ≠
        some (.indexOutOfRange nm k)) ∧
    (∀ i : Nat, i < j ∨ j + specs.length ≤ i →
      ((update_dims_loop dims specs j name dps).fst)[i]? = dims[i]?) :=
  ⟨fun h1 h2 => update_dims_loop_overrun specs dims j name dps h1 h2,
   fun h nm k => update_dims_loop_no_index_error specs dims j name dps h nm k,
   fun i hi => update_dims_loop_frame specs dims j name dps i hi⟩

theorem update_dims_loop_mismatch_spec_witness :
    (update_dims_loop [Dim.unset] [PyDim.int 1, PyDim.int 2] 0 "x" []).snd ≠
      none :=
  (update_dims_loop_mismatch_spec [Dim.unset] [PyDim.int 1, PyDim.int 2]
    0 "x" []).1 (by decide) (by decide)

/-- C7: two auto-generated symbolic names coincide only when both the
tensor name and the axis index coincide, so within one call the
generated names are pairwise distinct whenever the processed tensor
names are. -/
theorem generated_dim_param_distinct (n1 n2 : String) (j1 j2 : Nat)
    (h : n1 ≠ n2 ∨ j1 ≠ j2) :
    generated_dim_param n1 j1 ≠ generated_dim_param n2 j2 := by
  intro hc
  obtain ⟨he, hj⟩ := generated_inj n1 n2 j1 j2 hc
  rcases h with h | h
  · exact h he
  · exact h hj

theorem generated_dim_param_distinct_witness :
    generated_dim_param "input_1" 2 ≠ generated_dim_param "output" 2 :=
  generated_dim_param_distinct "input_1" "output" 2 2 (Or.inl (by decide))

/-- C8: on the documented example model, the call rewrites the input to
`("batch", 3, "input_1_2", "input_1_3")` and the output to
`("batch", "output_1", 5)` and succeeds whenever the external validator
accepts the result. -/
theorem end_to_end_spec (check_model : ModelProto → Bool)
    (h : check_model exampleExpected = true) :
    update_inputs_outputs_dims exampleModel exampleInputDims
      exampleOutputDims check_model = (exampleExpected, none) := by
  have hstep : update_inputs_outputs_dims exampleModel exampleInputDims
      exampleOutputDims check_model =
      (if check_model exampleExpected then (exampleExpected, none)
       else (exampleExpected, some .checkFailed)) := rfl
  rw [hstep, h]
  simp

theorem end_to_end_spec_witness :
    update_inputs_outputs_dims exampleModel exampleInputDims
      exampleOutputDims (fun _ => true) = (exampleExpected, none) :=
  end_to_end_spec (fun _ => true) rfl

/-- C9: whether the call succeeds or fails, everything in the returned
model other than the per-axis dimension descriptors of the graph inputs
and outputs is unchanged: value_info, nodes, initializers, model
metadata, all tensor names, and even every tensor's axis count. -/
theorem rewrite_frame_spec (model : ModelProto)
    (input_dims output_dims : List (String × List PyDim))
    (check_model : ModelProto → Bool) :
    (update_inputs_outputs_dims model input_dims output_dims
        check_model).fst.graph.value_info = model.graph.value_info ∧
    (update_inputs_outputs_dims model input_dims output_dims
        check_model).fst.graph.node = model.graph.node ∧
    (update_inputs_outputs_dims model input_dims output_dims
        check_model).fst.graph.initializer = model.graph.initializer ∧
    (update_inputs_outputs_dims model input_dims output_dims
        check_model).fst.ir_version = model.ir_version ∧
    (update_inputs_outputs_dims model input_dims output_dims
        check_model).fst.graph.input.map ValueInfoProto.name =
      model.graph.input.map ValueInfoProto.name ∧
    (update_inputs_outputs_dims model input_dims output_dims
        check_model).fst.graph.output.map ValueInfoProto.name =
      model.graph.output.map ValueInfoProto.name ∧
    (update_inputs_outputs_dims model input_dims output_dims
        check_model).fst.graph.input.map (fun t => t.dims.length) =
      model.graph.input.map (fun t => t.dims.length) ∧
    (update_inputs_outputs_dims model input_dims output_dims
        check_model).fst.graph.output.map (fun t => t.dims.length) =
      model.graph.output.map (fun t => t.dims.length) := by
  obtain ⟨ins, outs, hm, hn1, hn2, hl1, hl2⟩ :=
    rewrite_fst_form model input_dims output_dims check_model
  rw [hm]
  exact ⟨rfl, rfl, rfl, rfl, hn1, hn2, hl1, hl2⟩

/-- C10: a Python `bool` passed as a target dimension is treated as the
integer 1 (for True) or 0 (for False) — `bool` being a subclass of
`int` — and never raises the invalid-type failure. -/
theorem bool_dim_spec (dims : List Dim) (j : Nat) (name : String)
    (dps : List String) :
    update_dim dims (.bool true) j name dps =
      update_dim dims (.int 1) j name dps ∧
    update_dim dims (.bool false) j name dps =
      update_dim dims (.int 0) j name dps ∧
    ∀ b : Bool, update_dim dims (.bool b) j name dps ≠
      .error .invalidType := by
  refine ⟨rfl, rfl, ?_⟩
  intro b hcon
  unfold update_dim at hcon
  cases hd : dims[j]? with
  | none => rw [hd] at hcon; simp at hcon
  | some d =>
    rw [hd] at hcon
    simp only [PyDim.isInstInt] at hcon
    split_ifs at hcon <;> simp_all

end OnnxConverter
